import Mathlib

/-!
Verification of the deferred-i18n module `lighthouse-core/lib/i18n.js`.

The module is embedded shallowly:
* JavaScript numbers used as substitution values are `JSNum` (a rational or NaN);
* JavaScript objects are association lists in insertion order, with JS property
  assignment semantics (`objSet`: overwrite in place, else append);
* the external collaborators excluded by the design (the ICU message parser,
  the `intl-messageformat` formatting capability, the per-locale catalogs and
  the path utilities) are fields of an environment `Env`, universally
  quantified in the theorems;
* the mutable module state (`formattedStringUsages`, `locale`) is passed and
  returned explicitly;
* exceptions are `Except String`.
-/

/-- JavaScript values flowing through a substitution-values mapping: a finite
number (a rational), NaN, or `null`.  `null` matters because
`JSON.parse(JSON.stringify(values))` serializes a stored NaN (or Infinity) as
`null`; arithmetic then coerces `null` to 0 (`ToNumber(null) = +0`), while a
*missing* property (`undefined`) yields NaN (`undefined / 10` is NaN). -/
inductive JSNum where
  | num (q : ℚ)
  | nan
  | jnull
deriving DecidableEq

/-- A `values` mapping `Record<string, number>`: a JS object in insertion
order. -/
abbrev Values := List (String × JSNum)

/-- One typed placeholder element produced by the external ICU message parser:
its placeholder id and the optional `format.style` metadata (`none` when the
element has no `format` or no style). -/
structure MsgElement where
  id : String
  style : Option String
deriving DecidableEq

/-- The external collaborators of the module, treated as capabilities exactly
as the design prescribes:
* `parse`: `MessageParser.parse`, returning the typed placeholder elements of
  a template, or a parse error;
* `fmt`: `new MessageFormat(template, locale, formats).format(values)` — the
  fixed `formats` option (milliseconds render with zero fraction digits) is
  part of the capability;
* `locales`: the external locale catalogs, `LOCALES[locale][key].message`
  (`none` both when the locale has no catalog and when the key is absent,
  matching `LOCALES[locale] || {}` followed by the key lookup);
* `relFromRoot`: `path.relative(LH_ROOT, ·)`;
* `selfFilename`: the module's own `__filename`. -/
structure Env where
  parse : String → Except String (List MsgElement)
  fmt : String → String → Option Values → String
  locales : String → String → Option String
  relFromRoot : String → String
  selfFilename : String

/-- JS property read `m[key]` on an object in insertion order. -/
def alookup {β : Type} : List (String × β) → String → Option β
  | [], _ => none
  | (k, v) :: rest, key => if k = key then some v else alookup rest key

/-- JS property write `m[key] = v`: an existing key keeps its position and is
overwritten, a new key is appended. -/
def objSet {β : Type} (m : List (String × β)) (key : String) (v : β) :
    List (String × β) :=
  match alookup m key with
  | some _ => m.map (fun p => if p.1 = key then (key, v) else p)
  | none => m ++ [(key, v)]

/-- `Math.round(x / 10) * 10` (rounding half towards positive infinity, as
`Math.round` does); NaN propagates; `null` coerces to 0
(`Math.round(null / 10) * 10 === 0`). -/
def jsRound10 : JSNum → JSNum
  | .num q => .num ((⌊q / 10 + 1 / 2⌋ : ℤ) * 10)
  | .nan => .nan
  | .jnull => .num 0

/-- `x / 1024`; NaN propagates; `null` coerces to 0 (`null / 1024 === 0`). -/
def jsDiv1024 : JSNum → JSNum
  | .num q => .num (q / 1024)
  | .nan => .nan
  | .jnull => .num 0

/-- Reading `clonedValues[el.id]` for a transform: a missing property is
`undefined`, and both transforms turn `undefined` into NaN. -/
def jsGetNum (m : Values) (key : String) : JSNum :=
  (alookup m key).getD .nan

/-- One value through `JSON.parse(JSON.stringify(·))`: a finite double
round-trips exactly, NaN serializes as `null`, `null` stays `null`. -/
def jsonNum : JSNum → JSNum
  | .num q => .num q
  | .nan => .jnull
  | .jnull => .jnull

/-- The deep copy `JSON.parse(JSON.stringify(values))` of a values mapping:
same keys in order, each value through the JSON round-trip. -/
def jsonClone (vs : Values) : Values :=
  vs.map (fun kv => (kv.1, jsonNum kv.2))

/-- `preprocessMessageValues(msg, values)` (i18n.js lines 48–64): returns
`undefined` immediately when `values` is absent; otherwise takes the deep
copy `JSON.parse(JSON.stringify(values))` (which turns a stored NaN into
`null`), parses the template, rounds every entry named by a
`milliseconds`-styled placeholder to the nearest multiple of 10 and divides
every entry named by a `bytes`-styled placeholder by 1024, one update per
styled element in template order (a twice-styled id is transformed twice).
A parse failure propagates (the clone, being pure here, is unobservable in
that case). -/
def preprocessMessageValues (E : Env) (msg : String) (values : Option Values) :
    Except String (Option Values) :=
  match values with
  | none => .ok none
  | some vs =>
    match E.parse msg with
    | .error e => .error e
    | .ok parsed =>
      let clonedValues := jsonClone vs
      let msEls := parsed.filter (fun el => el.style = some ("milliseconds"))
      let afterMs := msEls.foldl
        (fun acc el => objSet acc el.id (jsRound10 (jsGetNum acc el.id)))
        clonedValues
      let byteEls := parsed.filter (fun el => el.style = some ("bytes"))
      let afterBytes := byteEls.foldl
        (fun acc el => objSet acc el.id (jsDiv1024 (jsGetNum acc el.id))) afterMs
      .ok (some afterBytes)

/-- The module's own message catalog `UIStrings` (i18n.js lines 29–34), in
definition order. -/
def UIStrings : List (String × String) :=
  [(("ms"), ("\x7btimeInMs, number, milliseconds\x7d\u00A0ms")),
   (("columnURL"), ("URL")),
   (("columnSize"), ("Size (KB)")),
   (("columnWastedTime"), ("Potential Savings (ms)"))]

/-- The object spread `{...base, ...ext}`: later keys overwrite in place,
fresh keys are appended in order. -/
def mergeObj (base ext : List (String × String)) : List (String × String) :=
  ext.foldl (fun acc kv => objSet acc kv.1 kv.2) base

/-- Decimal digits of a natural number, most significant first (the digits
`String(n)` produces). -/
def natDigits (n : Nat) : List Char :=
  if h : n < 10 then [Char.ofNat (48 + n)]
  else natDigits (n / 10) ++ [Char.ofNat (48 + n % 10)]
decreasing_by exact Nat.div_lt_self (by omega) (by omega)

/-- One recorded usage of a template: the `StringUsage` record
`{key, template, values}` pushed by `formatFn`. -/
structure Usage where
  key : String
  template : String
  values : Option Values
deriving DecidableEq

/-- The module-wide `formattedStringUsages` map, key → ordered usages. -/
abbrev Registry := List (String × List Usage)

/-- The recorder `formatFn` returned by `createStringFormatter(filename,
fileStrings)` (i18n.js lines 99–117): reverse-looks-up the template text in
the merged catalog, throws `Could not locate: <template>` when absent,
otherwise appends a usage record under the file-scoped key and returns the
placeholder token `<key>#<index>`. The registry is threaded explicitly. -/
def formatFn (E : Env) (filename : String) (fileStrings : List (String × String))
    (template : String) (values : Option Values) (reg : Registry) :
    Except String String × Registry :=
  let mergedStrings := mergeObj UIStrings fileStrings
  match mergedStrings.find? (fun p => p.2 = template) with
  | none => (.error (("Could not locate: ") ++ template), reg)
  | some kv =>
    let keyname := kv.1
    let filenameToLookup :=
      if (alookup UIStrings keyname).isSome then E.selfFilename else filename
    let key := E.relFromRoot filenameToLookup ++ ("!#") ++ keyname
    let keyUsages := (alookup reg key).getD []
    -- `keyUsages.push(...)` then `keyUsages.length - 1`: the new index is the
    -- number of previously recorded usages.
    (.ok (key ++ ("#") ++ String.mk (natDigits keyUsages.length)),
     objSet reg key (keyUsages ++ [⟨key, template, values⟩]))

/-- The template text `formatTemplate` actually formats with:
`(LOCALES[locale][key] && LOCALES[locale][key].message) || template` — the
localized text when present and truthy (a present empty string is falsy and
falls back), else the default template. -/
def templateUsed (E : Env) (locale key template : String) : String :=
  match E.locales locale key with
  | some m => if m = ("") then template else m
  | none => template

/-- `formatTemplate(locale, key, template, values)` (i18n.js lines 76–91):
resolves the template text with catalog fallback, substitutes `de-DE` for the
accented pseudo-locale `en-XA` for number formatting only, preprocesses the
values of the *default* template, and invokes the formatting capability.
Returns `{message, template}`. -/
def formatTemplate (E : Env) (locale key template : String)
    (values : Option Values) : Except String (String × String) :=
  let tpl := templateUsed E locale key template
  let localeForMessageFormat := if locale = ("en-XA") then ("de-DE") else locale
  match preprocessMessageValues E template values with
  | .error e => .error e
  | .ok valuesForMessageFormat =>
    .ok (E.fmt tpl localeForMessageFormat valuesForMessageFormat, tpl)

/-- JS `\d`: the characters `0`–`9`. -/
def isDigitChar (c : Char) : Bool := ('0' ≤ c) && (c ≤ '9')

/-- The match of `/(.*)#(\d+)$/` on a character list, when it exists: JS `$`
(no `m` flag) anchors at the very end, `\d+` is greedy, and there is at most
one `#` followed only by digits to the end of the string.  Returns the part
before that `#` and the digit run after it. -/
def splitLastHash (cs : List Char) : Option (List Char × List Char) :=
  match cs.reverse.dropWhile isDigitChar with
  | '#' :: restRev =>
    if (cs.reverse.takeWhile isDigitChar).isEmpty then none
    else some (restRev.reverse, (cs.reverse.takeWhile isDigitChar).reverse)
  | _ => none

/-- The part of a character list after its last newline (everything when there
is none).  JS `.` does not match `\n`, so the capture group `(.*)` of
`/(.*)#(\d+)$/` starts after the last newline preceding the final `#`. -/
def afterLastNewline (cs : List Char) : List Char :=
  (cs.reverse.takeWhile (fun c => c != '\n')).reverse

/-- Whether the two-character sequence `!#` occurs in the list. -/
def hasBangHash : List Char → Bool
  | [] => false
  | [_] => false
  | c1 :: c2 :: rest => (c1 = '!' && c2 = '#') || hasBangHash (c2 :: rest)

/-- `/.*!#.*#\d+$/.test(value)` (i18n.js line 134): the string ends in
`#<digits>`, and an occurrence of `!#` precedes that final `#` with no
newline in between (JS `.` does not cross newlines; the test itself is
unanchored at the start). -/
def testToken (s : String) : Bool :=
  match splitLastHash s.data with
  | some pd => hasBangHash (afterLastNewline pd.1)
  | none => false

/-- Whether a digit run is the canonical decimal representation of an array
index: JS `usages[usageIndex]` coerces the *string* `usageIndex`, so `"07"`
is not an array index even when usage 7 exists. -/
def canonicalDigits : List Char → Bool
  | [] => false
  | c :: rest => if c = '0' then rest.isEmpty else true

/-- Numeric value of a decimal digit run. -/
def natOfDigits (ds : List Char) : Nat :=
  ds.foldl (fun n c => n * 10 + (c.toNat - 48)) 0

/-- `usages[usageIndex]` where `usageIndex` is the captured digit string:
`none` is JS `undefined` (index out of range, or non-canonical digits). -/
def arrGet (usages : List Usage) (ds : List Char) : Option Usage :=
  if canonicalDigits ds then usages[natOfDigits ds]? else none

/-- A JSON-like report tree: the values `replaceInObject` can encounter.
`typeof` is `object` exactly for `null`, `arr` and `obj`; the guard
`typeof obj !== 'object' || !obj` recurses only into `arr` and `obj`. -/
inductive JVal where
  | str (s : String)
  | num (n : JSNum)
  | boolean (b : Bool)
  | null
  | undef
  | arr (elems : List JVal)
  | obj (fields : List (String × JVal))

/-- One audit-log occurrence `{values, path}`. -/
structure Occurrence where
  values : Option Values
  path : List String
deriving DecidableEq

/-- One audit-log entry `{template, occurrences}`. -/
structure LogRecord where
  template : String
  occurrences : List Occurrence
deriving DecidableEq

/-- The audit log being built: fileScopedKey → entry, in insertion order. -/
abbrev Log := List (String × LogRecord)

/-- The body of the token branch of `replaceInObject` (i18n.js lines
135–147): look up the usage record (`usage.values` throws on a dangling
reference, before any log mutation), append the occurrence to the entry's
occurrence list, format, and store the entry back.  Returns the formatted
message and the updated log. -/
def resolveCore (E : Env) (reg : Registry) (locale : String)
    (templateKey : String) (ds : List Char) (currentPath : List String)
    (log : Log) : Except String (String × Log) :=
  let usages := (alookup reg templateKey).getD []
  match arrGet usages ds with
  | none => .error ("TypeError: Cannot read property values of undefined")
  | some usage =>
    let prevOcc := ((alookup log templateKey).map LogRecord.occurrences).getD []
    let occurrences := prevOcc ++ [⟨usage.values, currentPath⟩]
    match formatTemplate E locale templateKey usage.template usage.values with
    | .error e => .error e
    | .ok mt => .ok (mt.1, objSet log templateKey ⟨mt.2, occurrences⟩)

mutual

/-- The body of the `for (const [key, value] of Object.entries(obj))` loop for
one entry: a string value matching the token shape is resolved and replaced,
any other value is recursed into (`replaceInObject` returns scalars
unchanged).  `currentPath` is `path.concat([key])`. -/
def stepEntry (E : Env) (reg : Registry) (locale : String) (v : JVal)
    (log : Log) (currentPath : List String) : Except String (JVal × Log) :=
  match v with
  | .str s =>
    if testToken s then
      match splitLastHash s.data with
      | some pd =>
        match resolveCore E reg locale (String.mk (afterLastNewline pd.1)) pd.2
            currentPath log with
        | .error e => .error e
        | .ok ml => .ok (.str ml.1, ml.2)
      | none => .ok (.str s, log)
    else replaceVal E reg locale (.str s) log currentPath
  | other => replaceVal E reg locale other log currentPath
termination_by (sizeOf v, 1)

/-- `replaceInObject(obj, log, path)` (i18n.js lines 129–152), rebuilt
functionally: non-container values are returned unchanged; containers have
each entry processed in `Object.entries` order, threading the log. -/
def replaceVal (E : Env) (reg : Registry) (locale : String) (v : JVal)
    (log : Log) (path : List String) : Except String (JVal × Log) :=
  match v with
  | .obj fields =>
    match replaceFields E reg locale fields log path with
    | .error e => .error e
    | .ok fl => .ok (.obj fl.1, fl.2)
  | .arr elems =>
    match replaceElems E reg locale elems 0 log path with
    | .error e => .error e
    | .ok el => .ok (.arr el.1, el.2)
  | other => .ok (other, log)
termination_by (sizeOf v, 0)

/-- The entries loop over an object's fields. -/
def replaceFields (E : Env) (reg : Registry) (locale : String)
    (fields : List (String × JVal)) (log : Log) (path : List String) :
    Except String (List (String × JVal) × Log) :=
  match fields with
  | [] => .ok ([], log)
  | (k, v) :: rest =>
    match stepEntry E reg locale v log (path ++ [k]) with
    | .error e => .error e
    | .ok vl =>
      match replaceFields E reg locale rest vl.2 path with
      | .error e => .error e
      | .ok rl => .ok ((k, vl.1) :: rl.1, rl.2)
termination_by (sizeOf fields, 0)

/-- The entries loop over an array: `Object.entries` enumerates indices as
decimal strings `"0"`, `"1"`, … which become path components. -/
def replaceElems (E : Env) (reg : Registry) (locale : String)
    (elems : List JVal) (i : Nat) (log : Log) (path : List String) :
    Except String (List JVal × Log) :=
  match elems with
  | [] => .ok ([], log)
  | v :: rest =>
    match stepEntry E reg locale v log (path ++ [String.mk (natDigits i)]) with
    | .error e => .error e
    | .ok vl =>
      match replaceElems E reg locale rest (i + 1) vl.2 path with
      | .error e => .error e
      | .ok rl => .ok (vl.1 :: rl.1, rl.2)
termination_by (sizeOf elems, 0)

end

/-- One stored value embedded in the audit-log tree: `null` is the tree's
own null; numbers (NaN included) stay numbers.  (`JVal.num` never carries
`JSNum.jnull` in an embedded tree.) -/
def jsNumToJVal : JSNum → JVal
  | .num q => .num (.num q)
  | .nan => .num .nan
  | .jnull => .null

/-- The JS value of a usage's `values` when embedded in the audit log (the
raw in-memory object: no JSON round-trip happens here). -/
def valuesToJVal : Option Values → JVal
  | none => .undef
  | some m => .obj (m.map (fun kv => (kv.1, jsNumToJVal kv.2)))

/-- The JS object for one occurrence `{values, path}`. -/
def occToJVal (o : Occurrence) : JVal :=
  .obj [(("values"), valuesToJVal o.values), (("path"), .arr (o.path.map .str))]

/-- The JS object for one audit-log entry (fields in assignment order:
`template` is assigned before `occurrences`). -/
def logRecordToJVal (r : LogRecord) : JVal :=
  .obj [(("template"), .str r.template),
        (("occurrences"), .arr (r.occurrences.map occToJVal))]

/-- The JS object for the whole audit log. -/
def logToJVal (log : Log) : JVal :=
  .obj (log.map (fun kv => (kv.1, logRecordToJVal kv.2)))

/-- The resolver core: `replaceInObject(lhr, log = {}, path = [])`, returning
the rewritten tree together with the accumulated audit log. -/
def replaceLHR (E : Env) (reg : Registry) (lhr : JVal) (locale : String) :
    Except String (JVal × Log) :=
  replaceVal E reg locale lhr [] []

/-- `replaceLocaleStringReferences(lhr, locale)` (i18n.js lines 128–157):
walks the tree and then assigns `lhr.localeLog = log`.  The report root is an
object (`LH.Result`); in strict mode the final property assignment throws on
a non-object root. -/
def replaceLocaleStringReferences (E : Env) (reg : Registry) (lhr : JVal)
    (locale : String) : Except String JVal :=
  match replaceLHR E reg lhr locale with
  | .error e => .error e
  | .ok vl =>
    match vl.1 with
    | .obj fields => .ok (.obj (objSet fields ("localeLog") (logToJVal vl.2)))
    | _ => .error ("TypeError: cannot create property localeLog")

/-- The module's process-wide mutable state: the `locale` variable (line 13)
and the `formattedStringUsages` registry (line 74). -/
structure I18nState where
  locale : String
  registry : Registry

/-- `setLocale(newLocale)` (i18n.js lines 121–124): a falsy argument (absent,
null, or the empty string) is ignored; otherwise the locale variable is
overwritten unconditionally. -/
def setLocale (newLocale : Option String) (st : I18nState) : I18nState :=
  match newLocale with
  | none => st
  | some l => if l = ("") then st else { st with locale := l }

/-- `formatFn` acting on the whole module state: it reads and writes the
registry and never touches the locale variable. -/
def formatFnState (E : Env) (filename : String)
    (fileStrings : List (String × String)) (template : String)
    (values : Option Values) (st : I18nState) :
    Except String String × I18nState :=
  let r := formatFn E filename fileStrings template values st.registry
  (r.1, { st with registry := r.2 })

/-- `replaceLocaleStringReferences` acting on the whole module state: its
`locale` parameter shadows the module-level variable, and the traversal only
reads the registry (no `.set`, no mutation of stored records — the
preprocessor works on a `JSON.parse(JSON.stringify(values))` copy), so the
state comes back unchanged. -/
def replaceLocaleStringReferencesState (E : Env) (st : I18nState) (lhr : JVal)
    (locale : String) : Except String JVal × I18nState :=
  (replaceLocaleStringReferences E st.registry lhr locale, st)

/-- A sequence of `setLocale` calls. -/
def applySetLocales (ls : List (Option String)) (st : I18nState) : I18nState :=
  ls.foldl (fun s l => setLocale l s) st

/-- Several resolution passes at different locales against the same state and
pristine copies of the same tree. -/
def resolvePasses (E : Env) (lhr : JVal) (locales : List String)
    (st : I18nState) : I18nState :=
  locales.foldl (fun s l => (replaceLocaleStringReferencesState E s lhr l).2) st

/-- The token shape as the spec describes it: an occurrence of `!#` somewhere
before a trailing `#<digits>`. Every string the code treats as a token has
this shape (the code is in fact slightly stricter: no newline may separate
the `!#` from the end). -/
def claimShape (s : String) : Prop :=
  ∃ a b d, s.data = a ++ ('!' :: '#' :: b) ++ ('#' :: d) ∧ d ≠ [] ∧
    ∀ c ∈ d, isDigitChar c = true

mutual

/-- Frame relation between a tree and its resolved form: string leaves of the
claimed token shape may have been rewritten to some other string, every other
leaf is unchanged, and containers keep their shape and keys. -/
inductive FrameVal : JVal → JVal → Prop where
  | strSame (s : String) : FrameVal (.str s) (.str s)
  | strToken (s m : String) (h : claimShape s) : FrameVal (.str s) (.str m)
  | num (n : JSNum) : FrameVal (.num n) (.num n)
  | boolean (b : Bool) : FrameVal (.boolean b) (.boolean b)
  | null : FrameVal .null .null
  | undef : FrameVal .undef .undef
  | arr (es es2 : List JVal) (h : FrameElems es es2) :
      FrameVal (.arr es) (.arr es2)
  | obj (fs fs2 : List (String × JVal)) (h : FrameFields fs fs2) :
      FrameVal (.obj fs) (.obj fs2)

/-- Pointwise frame relation on array elements. -/
inductive FrameElems : List JVal → List JVal → Prop where
  | nil : FrameElems [] []
  | cons (v v2 : JVal) (r r2 : List JVal) (h : FrameVal v v2)
      (hr : FrameElems r r2) : FrameElems (v :: r) (v2 :: r2)

/-- Pointwise frame relation on object fields (same keys, same order). -/
inductive FrameFields : List (String × JVal) → List (String × JVal) → Prop where
  | nil : FrameFields [] []
  | cons (k : String) (v v2 : JVal) (r r2 : List (String × JVal))
      (h : FrameVal v v2) (hr : FrameFields r r2) :
      FrameFields ((k, v) :: r) ((k, v2) :: r2)

end

mutual

/-- The tree contains, somewhere below this value, a string leaf that the
code recognises as a token but whose key and usage index have no record in
the registry (a dangling reference). -/
inductive DanglingVal (reg : Registry) : JVal → Prop where
  | obj (fields : List (String × JVal)) (h : DanglingFields reg fields) :
      DanglingVal reg (.obj fields)
  | arr (elems : List JVal) (h : DanglingElems reg elems) :
      DanglingVal reg (.arr elems)

/-- A dangling token among an object's entries. -/
inductive DanglingFields (reg : Registry) : List (String × JVal) → Prop where
  | headToken (k s : String) (rest : List (String × JVal))
      (pd : List Char × List Char) (htok : testToken s = true)
      (hsplit : splitLastHash s.data = some pd)
      (hmiss : arrGet ((alookup reg (String.mk (afterLastNewline pd.1))).getD [])
        pd.2 = none) : DanglingFields reg ((k, .str s) :: rest)
  | headRec (k : String) (v : JVal) (rest : List (String × JVal))
      (h : DanglingVal reg v) : DanglingFields reg ((k, v) :: rest)
  | tail (k : String) (v : JVal) (rest : List (String × JVal))
      (h : DanglingFields reg rest) : DanglingFields reg ((k, v) :: rest)

/-- A dangling token among an array's elements. -/
inductive DanglingElems (reg : Registry) : List JVal → Prop where
  | headToken (s : String) (rest : List JVal) (pd : List Char × List Char)
      (htok : testToken s = true) (hsplit : splitLastHash s.data = some pd)
      (hmiss : arrGet ((alookup reg (String.mk (afterLastNewline pd.1))).getD [])
        pd.2 = none) : DanglingElems reg (.str s :: rest)
  | headRec (v : JVal) (rest : List JVal) (h : DanglingVal reg v) :
      DanglingElems reg (v :: rest)
  | tail (v : JVal) (rest : List JVal) (h : DanglingElems reg rest) :
      DanglingElems reg (v :: rest)

end

mutual

/-- The occurrences the resolver is expected to append while processing one
entry value at its `currentPath`: one `(key, {values, path})` pair per
resolvable token leaf, in traversal order. -/
def entryOccs (reg : Registry) (v : JVal) (currentPath : List String) :
    List (String × Occurrence) :=
  match v with
  | .str s =>
    if testToken s then
      match splitLastHash s.data with
      | some pd =>
        match arrGet ((alookup reg (String.mk (afterLastNewline pd.1))).getD [])
            pd.2 with
        | some u => [(String.mk (afterLastNewline pd.1),
            ⟨u.values, currentPath⟩)]
        | none => []
      | none => []
    else tokenOccs reg (.str s) currentPath
  | other => tokenOccs reg other currentPath
termination_by (sizeOf v, 1)

/-- The occurrences expected from resolving a whole subtree. -/
def tokenOccs (reg : Registry) (v : JVal) (path : List String) :
    List (String × Occurrence) :=
  match v with
  | .obj fields => occFields reg fields path
  | .arr elems => occElems reg elems 0 path
  | _ => []
termination_by (sizeOf v, 0)

/-- Expected occurrences from an object's entries. -/
def occFields (reg : Registry) (fields : List (String × JVal))
    (path : List String) : List (String × Occurrence) :=
  match fields with
  | [] => []
  | (k, v) :: rest => entryOccs reg v (path ++ [k]) ++ occFields reg rest path
termination_by (sizeOf fields, 0)

/-- Expected occurrences from an array's elements, starting at index `i`. -/
def occElems (reg : Registry) (elems : List JVal) (i : Nat)
    (path : List String) : List (String × Occurrence) :=
  match elems with
  | [] => []
  | v :: rest => entryOccs reg v (path ++ [String.mk (natDigits i)]) ++
      occElems reg rest (i + 1) path
termination_by (sizeOf elems, 0)

end

/-- The occurrence list stored in the audit log for a key (empty when the key
has no entry). -/
def occsOf (log : Log) (k : String) : List Occurrence :=
  ((alookup log k).map LogRecord.occurrences).getD []

/-- The occurrences for one key among a collected `(key, occurrence)` list. -/
def emitFor (l : List (String × Occurrence)) (k : String) : List Occurrence :=
  l.filterMap (fun p => if p.1 = k then some p.2 else none)

/-- A concrete environment used to instantiate the universally quantified
external capabilities in witnesses: the parser sees no placeholders, the
formatter returns the template and the locale it was handed, no locale
catalog exists. -/
def witEnv : Env where
  parse := fun _ => .ok []
  fmt := fun t l _ => t ++ ("|") ++ l
  locales := fun _ _ => none
  relFromRoot := id
  selfFilename := ("lighthouse-core/lib/i18n.js")

/-- A witness environment whose parser reports a `milliseconds`-styled
placeholder `t` and a `bytes`-styled placeholder `b`. -/
def witEnvStyled : Env :=
  { witEnv with
    parse := fun _ => .ok [⟨("t"), some ("milliseconds")⟩,
      ⟨("b"), some ("bytes")⟩] }

/-- The counterexample environment for the preprocessor: the parser reports
exactly the placeholder of the module's own `ms` template, a
`milliseconds`-styled element with id `timeInMs` (which the real ICU parser
produces for that template). -/
def ceEnvC3 : Env :=
  { witEnv with parse := fun _ => .ok [⟨("timeInMs"), some ("milliseconds")⟩] }

/-- The counterexample environment for template fallback: every locale
catalog entry is present but holds the empty string. -/
def ceEnvC5 : Env :=
  { witEnv with locales := fun _ _ => some ("") }

/-- A one-record registry used by concrete witnesses: key `x!#k` with a
single recorded usage of the catalog template `URL` and absent values. -/
def reg9 : Registry := [(("x!#k"), [⟨("x!#k"), ("URL"), none⟩])]

/-- How many parsed elements carry style `milliseconds` and name the key
`k` — the number of times the milliseconds pass updates that entry. -/
def countMs (parsed : List MsgElement) (k : String) : Nat :=
  ((parsed.filter (fun el => el.style = some ("milliseconds"))).filter
    (fun el => el.id = k)).length

/-- How many parsed elements carry style `bytes` and name the key `k`. -/
def countBytes (parsed : List MsgElement) (k : String) : Nat :=
  ((parsed.filter (fun el => el.style = some ("bytes"))).filter
    (fun el => el.id = k)).length

/-- A second counterexample environment: the parser reports the same id `b`
with style `bytes` twice, as the real ICU parser does for a template that
uses one placeholder twice. -/
def ceEnvC3b : Env :=
  { witEnv with parse := fun _ => .ok [⟨("b"), some ("bytes")⟩,
      ⟨("b"), some ("bytes")⟩] }

/-! ### Association-list lemmas (JS object semantics) -/

theorem alookup_nil {β : Type} (k : String) :
    alookup ([] : List (String × β)) k = none := rfl

theorem alookup_cons {β : Type} (k0 : String) (v0 : β) (rest : List (String × β))
    (k : String) :
    alookup ((k0, v0) :: rest) k = if k0 = k then some v0 else alookup rest k := rfl

theorem alookup_append {β : Type} (m1 m2 : List (String × β)) (k : String) :
    alookup (m1 ++ m2) k =
      match alookup m1 k with
      | some v => some v
      | none => alookup m2 k := by
  induction m1 with
  | nil => simp [alookup_nil]
  | cons p rest ih =>
    obtain ⟨k0, v0⟩ := p
    rw [List.cons_append, alookup_cons, alookup_cons]
    by_cases h : k0 = k
    · simp [h]
    · simp [h, ih]

theorem alookup_setmap_self {β : Type} (m : List (String × β)) (key : String)
    (v : β) :
    alookup (m.map (fun p => if p.1 = key then (key, v) else p)) key =
      if (alookup m key).isSome then some v else none := by
  induction m with
  | nil => rfl
  | cons p rest ih =>
    obtain ⟨k0, v0⟩ := p
    rw [List.map_cons]
    by_cases h : k0 = key
    · rw [show (if (k0, v0).1 = key then (key, v) else (k0, v0))
          = (key, v) from by simp [h]]
      simp [alookup_cons, h]
    · rw [show (if (k0, v0).1 = key then (key, v) else (k0, v0))
          = (k0, v0) from by simp [h]]
      simp [alookup_cons, h, ih]

theorem alookup_setmap_ne {β : Type} (m : List (String × β)) (key k : String)
    (v : β) (h : k ≠ key) :
    alookup (m.map (fun p => if p.1 = key then (key, v) else p)) k =
      alookup m k := by
  induction m with
  | nil => rfl
  | cons p rest ih =>
    obtain ⟨k0, v0⟩ := p
    rw [List.map_cons]
    by_cases h0 : k0 = key
    · rw [show (if (k0, v0).1 = key then (key, v) else (k0, v0))
          = (key, v) from by simp [h0]]
      have hk0 : ¬k0 = k := fun hh => h (h0 ▸ hh ▸ rfl)
      have hkey : ¬key = k := fun hh => h (hh ▸ rfl)
      rw [alookup_cons, if_neg hkey, alookup_cons, if_neg hk0, ih]
    · rw [show (if (k0, v0).1 = key then (key, v) else (k0, v0))
          = (k0, v0) from by simp [h0]]
      rw [alookup_cons, alookup_cons, ih]

theorem alookup_objSet_self {β : Type} (m : List (String × β)) (key : String)
    (v : β) : alookup (objSet m key v) key = some v := by
  cases hmk : alookup m key with
  | some v0 => simp [objSet, hmk, alookup_setmap_self]
  | none =>
    rw [objSet, hmk, alookup_append, hmk, alookup_cons]
    simp

theorem alookup_objSet_ne {β : Type} (m : List (String × β)) (key k : String)
    (v : β) (h : k ≠ key) : alookup (objSet m key v) k = alookup m k := by
  cases hmk : alookup m key with
  | some v0 => simp [objSet, hmk, alookup_setmap_ne _ _ _ _ h]
  | none =>
    rw [objSet, hmk, alookup_append]
    have hk : ¬key = k := fun hh => h (hh ▸ rfl)
    cases hmm : alookup m k with
    | some v0 => simp
    | none => rw [alookup_cons, if_neg hk]; simp [alookup_nil]

theorem alookup_objSet_isSome {β : Type} (m : List (String × β))
    (key k : String) (v : β) :
    (alookup (objSet m key v) k).isSome ↔ (alookup m k).isSome ∨ k = key := by
  by_cases h : k = key
  · subst h; simp [alookup_objSet_self]
  · simp [alookup_objSet_ne _ _ _ _ h, h]

theorem map_fst_setmap {β : Type} (m : List (String × β)) (key : String)
    (v : β) :
    (m.map (fun p => if p.1 = key then (key, v) else p)).map Prod.fst =
      m.map Prod.fst := by
  induction m with
  | nil => rfl
  | cons p rest ih =>
    obtain ⟨k0, v0⟩ := p
    rw [List.map_cons]
    by_cases h : k0 = key
    · rw [show (if (k0, v0).1 = key then (key, v) else (k0, v0))
          = (key, v) from by simp [h]]
      rw [List.map_cons, List.map_cons, ih]
      simp [h]
    · rw [show (if (k0, v0).1 = key then (key, v) else (k0, v0))
          = (k0, v0) from by simp [h]]
      rw [List.map_cons, List.map_cons, ih]

theorem alookup_eq_none_iff {β : Type} (m : List (String × β)) (k : String) :
    alookup m k = none ↔ k ∉ m.map Prod.fst := by
  induction m with
  | nil => simp [alookup_nil]
  | cons p rest ih =>
    obtain ⟨k0, v0⟩ := p
    rw [alookup_cons]
    by_cases h : k0 = k
    · simp [h]
    · have hk : ¬k = k0 := fun hh => h (hh ▸ rfl)
      simp [h, hk, ih]

theorem objSet_map_fst {β : Type} (m : List (String × β)) (key : String)
    (v : β) :
    (objSet m key v).map Prod.fst =
      match alookup m key with
      | some _ => m.map Prod.fst
      | none => m.map Prod.fst ++ [key] := by
  cases hmk : alookup m key with
  | some v0 => rw [objSet, hmk]; exact map_fst_setmap m key v
  | none => rw [objSet, hmk]; simp

theorem objSet_keys_nodup {β : Type} (m : List (String × β)) (key : String)
    (v : β) (h : (m.map Prod.fst).Nodup) :
    ((objSet m key v).map Prod.fst).Nodup := by
  rw [objSet_map_fst]
  cases hmk : alookup m key with
  | some v0 => exact h
  | none =>
    have hk : key ∉ m.map Prod.fst := (alookup_eq_none_iff m key).mp hmk
    simp [List.nodup_append, h, hk]

/-! ### Decimal-digit lemmas -/

theorem splitLastHash_sound (cs pre ds : List Char)
    (h : splitLastHash cs = some (pre, ds)) :
    cs = pre ++ '#' :: ds ∧ ds ≠ [] ∧ ∀ c ∈ ds, isDigitChar c = true := by
  unfold splitLastHash at h
  split at h
  case h_2 => exact absurd h (by simp)
  case h_1 restRev heq =>
    split at h
    case isTrue => exact absurd h (by simp)
    case isFalse hne =>
      rw [Option.some_inj] at h
      obtain ⟨hpre, hds⟩ := Prod.mk.injEq .. ▸ h
      have hsplit : cs.reverse =
          cs.reverse.takeWhile isDigitChar ++ '#' :: restRev := by
        conv_lhs => rw [← List.takeWhile_append_dropWhile isDigitChar cs.reverse]
        rw [heq]
      have hcs : cs = restRev.reverse ++ '#' :: (cs.reverse.takeWhile isDigitChar).reverse := by
        conv_lhs => rw [← List.reverse_reverse cs, hsplit]
        rw [List.reverse_append, List.reverse_cons, List.append_assoc,
          List.singleton_append]
      refine ⟨?_, ?_, ?_⟩
      · rw [← hpre, ← hds]; exact hcs
      · rw [← hds]
        intro hnil
        exact hne (by simp [List.reverse_eq_nil_iff.mp hnil])
      · intro c hc
        rw [← hds] at hc
        exact List.mem_takeWhile_imp (List.mem_reverse.mp hc)

theorem afterLastNewline_suffix (cs : List Char) :
    ∃ a, cs = a ++ afterLastNewline cs := by
  unfold afterLastNewline
  refine ⟨(cs.reverse.dropWhile (fun c => c != '\n')).reverse, ?_⟩
  conv_lhs => rw [← List.reverse_reverse cs,
    ← List.takeWhile_append_dropWhile (fun c => c != '\n') cs.reverse]
  rw [List.reverse_append]

theorem hasBangHash_sound (l : List Char) (h : hasBangHash l = true) :
    ∃ a b, l = a ++ '!' :: '#' :: b := by
  induction l with
  | nil => simp [hasBangHash] at h
  | cons c rest ih =>
    cases rest with
    | nil => simp [hasBangHash] at h
    | cons c2 rest2 =>
      rw [hasBangHash] at h
      rcases Bool.or_eq_true .. ▸ h with h1 | h1
      · obtain ⟨hc, hc2⟩ := Bool.and_eq_true .. ▸ h1
        refine ⟨[], rest2, ?_⟩
        rw [List.nil_append, (by exact of_decide_eq_true hc : c = '!'),
          (by exact of_decide_eq_true hc2 : c2 = '#')]
      · obtain ⟨a, b, heq⟩ := ih h1
        exact ⟨c :: a, b, by rw [heq, List.cons_append]⟩

theorem testToken_imp_claimShape (s : String) (h : testToken s = true) :
    claimShape s := by
  unfold testToken at h
  cases hsp : splitLastHash s.data with
  | none => rw [hsp] at h; exact absurd h (by simp)
  | some pd =>
    obtain ⟨pre, ds⟩ := pd
    rw [hsp] at h
    have h2 : hasBangHash (afterLastNewline pre) = true := h
    obtain ⟨hcs, hds, hdig⟩ := splitLastHash_sound _ _ _ hsp
    obtain ⟨a0, hsuf⟩ := afterLastNewline_suffix pre
    obtain ⟨a1, b1, hbb⟩ := hasBangHash_sound _ h2
    refine ⟨a0 ++ a1, b1, ds, ?_, hds, hdig⟩
    rw [hcs]
    conv_lhs => rw [hsuf, hbb]
    simp [List.append_assoc]

/-- C5 counterexample: a localization that is present but equal to the empty
string is not used — JS `||` treats it as falsy — so "uses the localized
template from the Locale Catalog for (L, k) when present" fails as stated:
the catalog holds `""` for the key, yet the default template `"x"` is
formatted and returned. -/
theorem c5_formatter_fallback_counterexample :
    ceEnvC5.locales ("en") ("k") = some ("") ∧
    formatTemplate ceEnvC5 ("en") ("k") ("x") none =
      .ok (("x|en"), ("x")) ∧ ¬("x") = ("") := ⟨rfl, rfl, by decide⟩

/-- C5 (amended): the Formatter uses the localized template when it is
present and non-empty and otherwise the default template, never failing
because a localization is missing; the template text actually used is
returned, it is non-empty whenever the default template is, and on every
successful token resolution it is recorded in the audit-log entry's
`template` field for that key. -/
theorem c5_formatter_fallback (E : Env) (locale key template : String)
    (values pv : Option Values)
    (hpre : preprocessMessageValues E template values = .ok pv) :
    (∃ msg, formatTemplate E locale key template values =
      .ok (msg, templateUsed E locale key template)) ∧
    (E.locales locale key = none →
      templateUsed E locale key template = template) ∧
    (∀ m, E.locales locale key = some m → ¬m = ("") →
      templateUsed E locale key template = m) ∧
    (E.locales locale key = some ("") →
      templateUsed E locale key template = template) ∧
    (¬template = ("") → ¬templateUsed E locale key template = ("")) ∧
    (∀ reg (tk : String) ds cp log m lg,
      resolveCore E reg locale tk ds cp log = .ok (m, lg) →
      ∃ r, alookup lg tk = some r ∧
        ∃ u, arrGet ((alookup reg tk).getD []) ds = some u ∧
          r.template = templateUsed E locale tk u.template) := by
  refine ⟨?_, ?_, ?_, ?_, ?_, ?_⟩
  · unfold formatTemplate
    rw [hpre]
    exact ⟨_, rfl⟩
  · intro h; unfold templateUsed; rw [h]
  · intro m hm hne
    unfold templateUsed
    rw [hm]
    show (if m = ("") then template else m) = m
    rw [if_neg hne]
  · intro h
    unfold templateUsed
    rw [h]
    show (if ("") = ("") then template else ("")) = template
    rw [if_pos rfl]
  · intro ht
    unfold templateUsed
    cases hm : E.locales locale key with
    | none => exact ht
    | some m =>
      show ¬(if m = ("") then template else m) = ("")
      by_cases hme : m = ("")
      · rw [if_pos hme]; exact ht
      · rw [if_neg hme]; exact hme
  · intro reg tk ds cp log m lg hres
    simp only [resolveCore] at hres
    cases hget : arrGet ((alookup reg tk).getD []) ds with
    | none => simp [hget] at hres
    | some u =>
      simp only [hget] at hres
      cases hfmt : formatTemplate E locale tk u.template u.values with
      | error e => simp [hfmt] at hres
      | ok mt =>
        simp only [hfmt, Except.ok.injEq, Prod.mk.injEq] at hres
        have htpl : mt.2 = templateUsed E locale tk u.template := by
          unfold formatTemplate at hfmt
          cases hpre2 : preprocessMessageValues E u.template u.values with
          | error e => rw [hpre2] at hfmt; exact absurd hfmt (by simp)
          | ok pv2 =>
            rw [hpre2] at hfmt
            simp only [Except.ok.injEq] at hfmt
            rw [← hfmt]
        refine ⟨⟨mt.2, (Option.map LogRecord.occurrences
            (alookup log tk)).getD [] ++ [⟨u.values, cp⟩]⟩, ?_, u, rfl, htpl⟩
        rw [← hres.2, alookup_objSet_self]

/-- C5 witness: the amended Formatter theorem applied to the witness
environment (no catalog), a key, the default template `URL` and absent
values. -/
theorem c5_formatter_fallback_witness :
    preprocessMessageValues witEnv ("URL") none = .ok none ∧
    ((∃ msg, formatTemplate witEnv ("de") ("k") ("URL") none =
      .ok (msg, templateUsed witEnv ("de") ("k") ("URL"))) ∧
    (witEnv.locales ("de") ("k") = none →
      templateUsed witEnv ("de") ("k") ("URL") = ("URL")) ∧
    (∀ m, witEnv.locales ("de") ("k") = some m → ¬m = ("") →
      templateUsed witEnv ("de") ("k") ("URL") = m) ∧
    (witEnv.locales ("de") ("k") = some ("") →
      templateUsed witEnv ("de") ("k") ("URL") = ("URL")) ∧
    (¬("URL") = ("") → ¬templateUsed witEnv ("de") ("k") ("URL") = ("")) ∧
    (∀ reg (tk : String) ds cp log m lg,
      resolveCore witEnv reg ("de") tk ds cp log = .ok (m, lg) →
      ∃ r, alookup lg tk = some r ∧
        ∃ u, arrGet ((alookup reg tk).getD []) ds = some u ∧
          r.template = templateUsed witEnv ("de") tk u.template)) :=
  ⟨rfl, c5_formatter_fallback witEnv ("de") ("k") ("URL") none none rfl⟩

/-- C6: for the accented pseudo-locale `en-XA` the formatting capability is
invoked with the concrete locale `de-DE` while the template text is still
resolved against the pseudo-locale's own catalog entry; for every other
locale the requested locale itself is passed for number formatting. -/
theorem c6_pseudo_locale_number_formatting (E : Env) (key template : String)
    (values pv : Option Values)
    (hpre : preprocessMessageValues E template values = .ok pv) :
    (formatTemplate E ("en-XA") key template values =
      .ok (E.fmt (templateUsed E ("en-XA") key template) ("de-DE") pv,
        templateUsed E ("en-XA") key template)) ∧
    (∀ m, E.locales ("en-XA") key = some m → ¬m = ("") →
      templateUsed E ("en-XA") key template = m) ∧
    (∀ locale, ¬locale = ("en-XA") →
      formatTemplate E locale key template values =
        .ok (E.fmt (templateUsed E locale key template) locale pv,
          templateUsed E locale key template)) := by
  refine ⟨?_, ?_, ?_⟩
  · unfold formatTemplate
    rw [hpre, if_pos rfl]
  · intro m hm hne
    unfold templateUsed
    rw [hm]
    show (if m = ("") then template else m) = m
    rw [if_neg hne]
  · intro locale hl
    unfold formatTemplate
    rw [hpre, if_neg hl]

/-- C6 witness: the pseudo-locale theorem applied to the witness environment,
the default template `URL` and absent values. -/
theorem c6_pseudo_locale_number_formatting_witness :
    preprocessMessageValues witEnv ("URL") none = .ok none ∧
    ((formatTemplate witEnv ("en-XA") ("k") ("URL") none =
      .ok (witEnv.fmt (templateUsed witEnv ("en-XA") ("k") ("URL")) ("de-DE")
        none, templateUsed witEnv ("en-XA") ("k") ("URL"))) ∧
    (∀ m, witEnv.locales ("en-XA") ("k") = some m → ¬m = ("") →
      templateUsed witEnv ("en-XA") ("k") ("URL") = m) ∧
    (∀ locale, ¬locale = ("en-XA") →
      formatTemplate witEnv locale ("k") ("URL") none =
        .ok (witEnv.fmt (templateUsed witEnv locale ("k") ("URL")) locale none,
          templateUsed witEnv locale ("k") ("URL")))) :=
  ⟨rfl, c6_pseudo_locale_number_formatting witEnv ("k") ("URL") none none rfl⟩

/-- C10: the module-level `locale` variable written by `setLocale` is read by
no operation — `formatTemplate` and `replaceLocaleStringReferences` use their
shadowing parameters — so any sequence of `setLocale` calls leaves the
registry untouched and changes the output of no subsequent recorder or
resolution call. -/
theorem c10_setLocale_unobservable (E : Env) (st : I18nState)
    (ls : List (Option String)) (lhr : JVal) (locale filename : String)
    (fileStrings : List (String × String)) (template : String)
    (values : Option Values) :
    (applySetLocales ls st).registry = st.registry ∧
    (replaceLocaleStringReferencesState E (applySetLocales ls st) lhr
      locale).1 = (replaceLocaleStringReferencesState E st lhr locale).1 ∧
    (formatFnState E filename fileStrings template values
      (applySetLocales ls st)).1 =
      (formatFnState E filename fileStrings template values st).1 := by
  have hreg : ∀ st2 : I18nState, (applySetLocales ls st2).registry =
      st2.registry := by
    induction ls with
    | nil => intro st2; rfl
    | cons l rest ih =>
      intro st2
      show (applySetLocales rest (setLocale l st2)).registry = st2.registry
      rw [ih (setLocale l st2)]
      cases l with
      | none => rfl
      | some s =>
        show (if s = ("") then st2
          else { locale := s, registry := st2.registry } : I18nState).registry =
          st2.registry
        by_cases hs : s = ("")
        · rw [if_pos hs]
        · rw [if_neg hs]
  refine ⟨hreg st, ?_, ?_⟩
  · unfold replaceLocaleStringReferencesState
    rw [hreg st]
  · unfold formatFnState
    rw [hreg st]

/-- C4: stored usage records are never mutated by resolution — any number of
resolution passes at any locales returns the registry unchanged, every
record's values are deep-equal before and after, and applying the
Preprocessor twice to the same template and values yields the same output
both times (the code transforms a `JSON.parse(JSON.stringify(values))` deep
copy, never the stored object). -/
theorem c4_usage_records_immutable (E : Env) (lhr : JVal) (locs : List String)
    (st : I18nState) (msg : String) (values : Option Values) :
    (resolvePasses E lhr locs st).registry = st.registry ∧
    (∀ k, alookup (resolvePasses E lhr locs st).registry k =
      alookup st.registry k) ∧
    (preprocessMessageValues E msg values,
      preprocessMessageValues E msg values).1 =
    (preprocessMessageValues E msg values,
      preprocessMessageValues E msg values).2 := by
  have h : ∀ st2 : I18nState, (resolvePasses E lhr locs st2).registry =
      st2.registry := by
    induction locs with
    | nil => intro st2; rfl
    | cons l rest ih =>
      intro st2
      show (resolvePasses E lhr rest
        (replaceLocaleStringReferencesState E st2 lhr l).2).registry =
        st2.registry
      rw [ih]
      rfl
  exact ⟨h st, fun k => by rw [h st], rfl⟩

mutual

theorem danglingVal_error (E : Env) (reg : Registry) (locale : String)
    (v : JVal) (h : DanglingVal reg v) (log : Log) (path : List String) :
    ∃ e, replaceVal E reg locale v log path = .error e := by
  cases h with
  | obj fields hf =>
    obtain ⟨e, he⟩ := danglingFields_error E reg locale fields hf log path
    refine ⟨e, ?_⟩
    simp only [replaceVal]
    rw [he]
  | arr elems he0 =>
    obtain ⟨e, he⟩ := danglingElems_error E reg locale elems he0 0 log path
    refine ⟨e, ?_⟩
    simp only [replaceVal]
    rw [he]

theorem danglingFields_error (E : Env) (reg : Registry) (locale : String)
    (fs : List (String × JVal)) (h : DanglingFields reg fs) (log : Log)
    (path : List String) :
    ∃ e, replaceFields E reg locale fs log path = .error e := by
  cases h with
  | headToken k s rest pd htok hsplit hmiss =>
    refine ⟨("TypeError: Cannot read property values of undefined"), ?_⟩
    simp only [replaceFields]
    have hstep : stepEntry E reg locale (.str s) log (path ++ [k]) =
        .error ("TypeError: Cannot read property values of undefined") := by
      simp [stepEntry, htok, hsplit, resolveCore, hmiss]
    rw [hstep]
  | headRec k v rest hv =>
    obtain ⟨e, he⟩ := danglingVal_error E reg locale v hv log (path ++ [k])
    have hstep : stepEntry E reg locale v log (path ++ [k]) =
        replaceVal E reg locale v log (path ++ [k]) := by
      cases hv with
      | obj fields _ => simp only [stepEntry]
      | arr elems _ => simp only [stepEntry]
    refine ⟨e, ?_⟩
    simp only [replaceFields]
    rw [hstep, he]
  | tail k v rest hrest =>
    cases hstep : stepEntry E reg locale v log (path ++ [k]) with
    | error e =>
      refine ⟨e, ?_⟩
      simp only [replaceFields]
      rw [hstep]
    | ok vl =>
      obtain ⟨e, he⟩ := danglingFields_error E reg locale rest hrest vl.2 path
      refine ⟨e, ?_⟩
      simp only [replaceFields]
      rw [hstep]
      simp only [he]

theorem danglingElems_error (E : Env) (reg : Registry) (locale : String)
    (es : List JVal) (h : DanglingElems reg es) (i : Nat) (log : Log)
    (path : List String) :
    ∃ e, replaceElems E reg locale es i log path = .error e := by
  cases h with
  | headToken s rest pd htok hsplit hmiss =>
    refine ⟨("TypeError: Cannot read property values of undefined"), ?_⟩
    simp only [replaceElems]
    have hstep : stepEntry E reg locale (.str s) log
        (path ++ [String.mk (natDigits i)]) =
        .error ("TypeError: Cannot read property values of undefined") := by
      simp [stepEntry, htok, hsplit, resolveCore, hmiss]
    rw [hstep]
  | headRec v rest hv =>
    obtain ⟨e, he⟩ := danglingVal_error E reg locale v hv log
      (path ++ [String.mk (natDigits i)])
    have hstep : stepEntry E reg locale v log
        (path ++ [String.mk (natDigits i)]) =
        replaceVal E reg locale v log (path ++ [String.mk (natDigits i)]) := by
      cases hv with
      | obj fields _ => simp only [stepEntry]
      | arr elems _ => simp only [stepEntry]
    refine ⟨e, ?_⟩
    simp only [replaceElems]
    rw [hstep, he]
  | tail v rest hrest =>
    cases hstep : stepEntry E reg locale v log
        (path ++ [String.mk (natDigits i)]) with
    | error e =>
      refine ⟨e, ?_⟩
      simp only [replaceElems]
      rw [hstep]
    | ok vl =>
      obtain ⟨e, he⟩ := danglingElems_error E reg locale rest hrest (i + 1)
        vl.2 path
      refine ⟨e, ?_⟩
      simp only [replaceElems]
      rw [hstep]
      simp only [he]

end

/-- C8: a placeholder token in the tree whose key and usage index have no
corresponding record in the registry makes the resolution pass raise (the
code dereferences `usage.values` on `undefined`) rather than silently
skipping the token. -/
theorem c8_dangling_reference_fatal (E : Env) (reg : Registry) (lhr : JVal)
    (locale : String) (h : DanglingVal reg lhr) :
    ∃ e, replaceLocaleStringReferences E reg lhr locale = .error e := by
  obtain ⟨e, he⟩ := danglingVal_error E reg locale lhr h [] []
  refine ⟨e, ?_⟩
  simp only [replaceLocaleStringReferences, replaceLHR, he]

/-- C8 witness: resolving a tree holding the token `x!#k#0` against the empty
registry fails. -/
theorem c8_dangling_reference_fatal_witness :
    ∃ e, replaceLocaleStringReferences witEnv []
      (JVal.obj [(("a"), JVal.str ("x!#k#0"))]) ("en") = .error e :=
  c8_dangling_reference_fatal witEnv [] _ ("en")
    (DanglingVal.obj _ (DanglingFields.headToken ("a") ("x!#k#0") []
      ((("x!#k").data), [('0')]) (by decide) (by decide) (by decide)))

mutual

theorem frameStep_of (E : Env) (reg : Registry) (locale : String) (v : JVal) :
    ∀ log cp v2 log2, stepEntry E reg locale v log cp = .ok (v2, log2) →
      FrameVal v v2 := by
  intro log cp v2 log2 h
  match v with
  | .str s =>
    simp only [stepEntry] at h
    by_cases ht : testToken s = true
    · rw [if_pos ht] at h
      cases hsp : splitLastHash s.data with
      | none =>
        simp only [hsp, Except.ok.injEq, Prod.mk.injEq] at h
        rw [← h.1]
        exact FrameVal.strSame s
      | some pd =>
        cases hrc : resolveCore E reg locale
            (String.mk (afterLastNewline pd.1)) pd.2 cp log with
        | error e => simp [hsp, hrc] at h
        | ok ml =>
          simp only [hsp, hrc, Except.ok.injEq, Prod.mk.injEq] at h
          rw [← h.1]
          exact FrameVal.strToken s ml.1 (testToken_imp_claimShape s ht)
    · rw [if_neg ht] at h
      exact frameVal_of E reg locale (.str s) log cp v2 log2 h
  | .num n =>
    simp only [stepEntry] at h
    exact frameVal_of E reg locale (.num n) log cp v2 log2 h
  | .boolean b =>
    simp only [stepEntry] at h
    exact frameVal_of E reg locale (.boolean b) log cp v2 log2 h
  | .null =>
    simp only [stepEntry] at h
    exact frameVal_of E reg locale .null log cp v2 log2 h
  | .undef =>
    simp only [stepEntry] at h
    exact frameVal_of E reg locale .undef log cp v2 log2 h
  | .arr es =>
    simp only [stepEntry] at h
    exact frameVal_of E reg locale (.arr es) log cp v2 log2 h
  | .obj fs =>
    simp only [stepEntry] at h
    exact frameVal_of E reg locale (.obj fs) log cp v2 log2 h
termination_by (sizeOf v, 1)

theorem frameVal_of (E : Env) (reg : Registry) (locale : String) (v : JVal) :
    ∀ log path v2 log2, replaceVal E reg locale v log path = .ok (v2, log2) →
      FrameVal v v2 := by
  intro log path v2 log2 h
  match v with
  | .str s =>
    simp only [replaceVal, Except.ok.injEq, Prod.mk.injEq] at h
    rw [← h.1]
    exact FrameVal.strSame s
  | .num n =>
    simp only [replaceVal, Except.ok.injEq, Prod.mk.injEq] at h
    rw [← h.1]
    exact FrameVal.num n
  | .boolean b =>
    simp only [replaceVal, Except.ok.injEq, Prod.mk.injEq] at h
    rw [← h.1]
    exact FrameVal.boolean b
  | .null =>
    simp only [replaceVal, Except.ok.injEq, Prod.mk.injEq] at h
    rw [← h.1]
    exact FrameVal.null
  | .undef =>
    simp only [replaceVal, Except.ok.injEq, Prod.mk.injEq] at h
    rw [← h.1]
    exact FrameVal.undef
  | .obj fields =>
    simp only [replaceVal] at h
    cases hf : replaceFields E reg locale fields log path with
    | error e => simp [hf] at h
    | ok fl =>
      simp only [hf, Except.ok.injEq, Prod.mk.injEq] at h
      rw [← h.1]
      exact FrameVal.obj fields fl.1
        (frameFields_of E reg locale fields log path fl.1 fl.2 (by rw [hf]))
  | .arr elems =>
    simp only [replaceVal] at h
    cases he : replaceElems E reg locale elems 0 log path with
    | error e => simp [he] at h
    | ok el =>
      simp only [he, Except.ok.injEq, Prod.mk.injEq] at h
      rw [← h.1]
      exact FrameVal.arr elems el.1
        (frameElems_of E reg locale elems 0 log path el.1 el.2 (by rw [he]))
termination_by (sizeOf v, 0)

theorem frameFields_of (E : Env) (reg : Registry) (locale : String)
    (fields : List (String × JVal)) :
    ∀ log path fs2 log2,
      replaceFields E reg locale fields log path = .ok (fs2, log2) →
      FrameFields fields fs2 := by
  intro log path fs2 log2 h
  match fields with
  | [] =>
    simp only [replaceFields, Except.ok.injEq, Prod.mk.injEq] at h
    rw [← h.1]
    exact FrameFields.nil
  | (k, v) :: rest =>
    simp only [replaceFields] at h
    cases hs : stepEntry E reg locale v log (path ++ [k]) with
    | error e => simp [hs] at h
    | ok vl =>
      cases hr : replaceFields E reg locale rest vl.2 path with
      | error e => simp [hs, hr] at h
      | ok rl =>
        simp only [hs, hr, Except.ok.injEq, Prod.mk.injEq] at h
        rw [← h.1]
        exact FrameFields.cons k v vl.1 rest rl.1
          (frameStep_of E reg locale v log (path ++ [k]) vl.1 vl.2
            (by rw [hs]))
          (frameFields_of E reg locale rest vl.2 path rl.1 rl.2 (by rw [hr]))
termination_by (sizeOf fields, 0)

theorem frameElems_of (E : Env) (reg : Registry) (locale : String)
    (elems : List JVal) :
    ∀ i log path es2 log2,
      replaceElems E reg locale elems i log path = .ok (es2, log2) →
      FrameElems elems es2 := by
  intro i log path es2 log2 h
  match elems with
  | [] =>
    simp only [replaceElems, Except.ok.injEq, Prod.mk.injEq] at h
    rw [← h.1]
    exact FrameElems.nil
  | v :: rest =>
    simp only [replaceElems] at h
    cases hs : stepEntry E reg locale v log
        (path ++ [String.mk (natDigits i)]) with
    | error e => simp [hs] at h
    | ok vl =>
      cases hr : replaceElems E reg locale rest (i + 1) vl.2 path with
      | error e => simp [hs, hr] at h
      | ok rl =>
        simp only [hs, hr, Except.ok.injEq, Prod.mk.injEq] at h
        rw [← h.1]
        exact FrameElems.cons v vl.1 rest rl.1
          (frameStep_of E reg locale v log (path ++ [String.mk (natDigits i)])
            vl.1 vl.2 (by rw [hs]))
          (frameElems_of E reg locale rest (i + 1) vl.2 path rl.1 rl.2
            (by rw [hr]))
termination_by (sizeOf elems, 0)

end

/-- C7: a successful resolution pass rewrites only string leaves of the
placeholder-token shape (a `!#` segment before a trailing `#<digits>`) and
adds the `localeLog` field at the top level; every other string leaf — in
particular one ending in `#<digits>` with no `!#` segment — and every
non-string, non-container leaf keeps its original value, and containers keep
their shape and keys. -/
theorem c7_resolution_frame (E : Env) (reg : Registry) (locale : String)
    (fields : List (String × JVal)) (out : JVal)
    (h : replaceLocaleStringReferences E reg (.obj fields) locale = .ok out) :
    ∃ fields2 lg, out = .obj (objSet fields2 ("localeLog") lg) ∧
      FrameFields fields fields2 := by
  unfold replaceLocaleStringReferences replaceLHR at h
  cases hr : replaceVal E reg locale (.obj fields) [] [] with
  | error e => simp [hr] at h
  | ok vl =>
    obtain ⟨v1, lg1⟩ := vl
    have hfv := frameVal_of E reg locale (.obj fields) [] [] v1 lg1 (by rw [hr])
    cases hfv with
    | obj fs fs2 hff =>
      simp only [hr, Except.ok.injEq] at h
      exact ⟨fs2, logToJVal lg1, h.symm, hff⟩

/-- C7 witness: resolving a one-field tree whose string leaf `ends in #12`
has no `!#` segment succeeds, rewrites nothing, and adds `localeLog` at the
top. -/
theorem c7_resolution_frame_witness :
    replaceLocaleStringReferences witEnv []
      (JVal.obj [(("a"), JVal.str ("ends in #12"))]) ("en") =
      .ok (JVal.obj [(("a"), JVal.str ("ends in #12")),
        (("localeLog"), JVal.obj [])]) ∧
    ∃ fields2 lg, (JVal.obj [(("a"), JVal.str ("ends in #12")),
        (("localeLog"), JVal.obj [])]) =
      .obj (objSet fields2 ("localeLog") lg) ∧
      FrameFields [(("a"), JVal.str ("ends in #12"))] fields2 := by
  have h : replaceLocaleStringReferences witEnv []
      (JVal.obj [(("a"), JVal.str ("ends in #12"))]) ("en") =
      .ok (JVal.obj [(("a"), JVal.str ("ends in #12")),
        (("localeLog"), JVal.obj [])]) := by
    simp [replaceLocaleStringReferences, replaceLHR, replaceVal, replaceFields,
      stepEntry, (by decide : testToken ("ends in #12") = false), logToJVal,
      objSet, alookup]
  exact ⟨h, c7_resolution_frame witEnv [] ("en")
    [(("a"), JVal.str ("ends in #12"))] _ h⟩

/-! ### Audit-log occurrence lemmas -/

theorem emitFor_append (l1 l2 : List (String × Occurrence)) (k : String) :
    emitFor (l1 ++ l2) k = emitFor l1 k ++ emitFor l2 k := by
  unfold emitFor
  rw [List.filterMap_append]

theorem resolveCore_occs (E : Env) (reg : Registry) (locale : String)
    (tk : String) (ds : List Char) (cp : List String) (log : Log)
    (m : String) (lg : Log)
    (h : resolveCore E reg locale tk ds cp log = .ok (m, lg)) :
    (∃ u, arrGet ((alookup reg tk).getD []) ds = some u ∧
      ∀ k, occsOf lg k = occsOf log k ++
        emitFor [(tk, ⟨u.values, cp⟩)] k) ∧
    ((log.map Prod.fst).Nodup → (lg.map Prod.fst).Nodup) := by
  simp only [resolveCore] at h
  cases hget : arrGet ((alookup reg tk).getD []) ds with
  | none => simp [hget] at h
  | some u =>
    simp only [hget] at h
    cases hfmt : formatTemplate E locale tk u.template u.values with
    | error e => simp [hfmt] at h
    | ok mt =>
      simp only [hfmt, Except.ok.injEq, Prod.mk.injEq] at h
      refine ⟨⟨u, rfl, ?_⟩, ?_⟩
      · intro k
        rw [← h.2]
        by_cases hk : k = tk
        · subst hk
          unfold occsOf
          rw [alookup_objSet_self]
          simp [emitFor]
        · unfold occsOf
          rw [alookup_objSet_ne _ _ _ _ hk]
          simp [emitFor]
          exact fun hh => hk hh.symm
      · intro hnd
        rw [← h.2]
        exact objSet_keys_nodup _ _ _ hnd

mutual

theorem occStep_of (E : Env) (reg : Registry) (locale : String) (v : JVal) :
    ∀ log cp v2 log2, stepEntry E reg locale v log cp = .ok (v2, log2) →
      (∀ k, occsOf log2 k = occsOf log k ++ emitFor (entryOccs reg v cp) k) ∧
      ((log.map Prod.fst).Nodup → (log2.map Prod.fst).Nodup) := by
  intro log cp v2 log2 h
  match v with
  | .str s =>
    simp only [stepEntry] at h
    by_cases ht : testToken s = true
    · rw [if_pos ht] at h
      cases hsp : splitLastHash s.data with
      | none =>
        simp only [hsp, Except.ok.injEq, Prod.mk.injEq] at h
        refine ⟨fun k => ?_, fun hnd => ?_⟩
        · rw [← h.2,
            show entryOccs reg (.str s) cp = [] from by
              simp only [entryOccs, if_pos ht, hsp]]
          simp [emitFor]
        · rw [← h.2]; exact hnd
      | some pd =>
        cases hrc : resolveCore E reg locale
            (String.mk (afterLastNewline pd.1)) pd.2 cp log with
        | error e => simp [hsp, hrc] at h
        | ok ml =>
          simp only [hsp, hrc, Except.ok.injEq, Prod.mk.injEq] at h
          obtain ⟨⟨u, hget, hocc⟩, hnd0⟩ :=
            resolveCore_occs E reg locale _ pd.2 cp log ml.1 ml.2 (by rw [hrc])
          refine ⟨fun k => ?_, fun hnd => ?_⟩
          · rw [← h.2,
              show entryOccs reg (.str s) cp =
                [(String.mk (afterLastNewline pd.1), ⟨u.values, cp⟩)] from by
                simp only [entryOccs, if_pos ht, hsp, hget]]
            exact hocc k
          · rw [← h.2]; exact hnd0 hnd
    · rw [if_neg ht] at h
      obtain ⟨hocc, hnd⟩ := occVal_of E reg locale (.str s) log cp v2 log2 h
      refine ⟨fun k => ?_, hnd⟩
      rw [show entryOccs reg (.str s) cp = tokenOccs reg (.str s) cp from by
        simp only [entryOccs, if_neg ht]]
      exact hocc k
  | .num n =>
    simp only [stepEntry] at h
    obtain ⟨hocc, hnd⟩ := occVal_of E reg locale (.num n) log cp v2 log2 h
    exact ⟨fun k => by
      rw [show entryOccs reg (.num n) cp = tokenOccs reg (.num n) cp from by
        simp only [entryOccs]]
      exact hocc k, hnd⟩
  | .boolean b =>
    simp only [stepEntry] at h
    obtain ⟨hocc, hnd⟩ := occVal_of E reg locale (.boolean b) log cp v2 log2 h
    exact ⟨fun k => by
      rw [show entryOccs reg (.boolean b) cp = tokenOccs reg (.boolean b) cp
        from by simp only [entryOccs]]
      exact hocc k, hnd⟩
  | .null =>
    simp only [stepEntry] at h
    obtain ⟨hocc, hnd⟩ := occVal_of E reg locale .null log cp v2 log2 h
    exact ⟨fun k => by
      rw [show entryOccs reg .null cp = tokenOccs reg .null cp from by
        simp only [entryOccs]]
      exact hocc k, hnd⟩
  | .undef =>
    simp only [stepEntry] at h
    obtain ⟨hocc, hnd⟩ := occVal_of E reg locale .undef log cp v2 log2 h
    exact ⟨fun k => by
      rw [show entryOccs reg .undef cp = tokenOccs reg .undef cp from by
        simp only [entryOccs]]
      exact hocc k, hnd⟩
  | .arr es =>
    simp only [stepEntry] at h
    obtain ⟨hocc, hnd⟩ := occVal_of E reg locale (.arr es) log cp v2 log2 h
    exact ⟨fun k => by
      rw [show entryOccs reg (.arr es) cp = tokenOccs reg (.arr es) cp from by
        simp only [entryOccs]]
      exact hocc k, hnd⟩
  | .obj fs =>
    simp only [stepEntry] at h
    obtain ⟨hocc, hnd⟩ := occVal_of E reg locale (.obj fs) log cp v2 log2 h
    exact ⟨fun k => by
      rw [show entryOccs reg (.obj fs) cp = tokenOccs reg (.obj fs) cp from by
        simp only [entryOccs]]
      exact hocc k, hnd⟩
termination_by (sizeOf v, 1)

theorem occVal_of (E : Env) (reg : Registry) (locale : String) (v : JVal) :
    ∀ log path v2 log2, replaceVal E reg locale v log path = .ok (v2, log2) →
      (∀ k, occsOf log2 k = occsOf log k ++
        emitFor (tokenOccs reg v path) k) ∧
      ((log.map Prod.fst).Nodup → (log2.map Prod.fst).Nodup) := by
  intro log path v2 log2 h
  match v with
  | .str s =>
    simp only [replaceVal, Except.ok.injEq, Prod.mk.injEq] at h
    refine ⟨fun k => ?_, fun hnd => ?_⟩
    · rw [← h.2, show tokenOccs reg (.str s) path = [] from by
        simp only [tokenOccs]]
      simp [emitFor]
    · rw [← h.2]; exact hnd
  | .num n =>
    simp only [replaceVal, Except.ok.injEq, Prod.mk.injEq] at h
    refine ⟨fun k => ?_, fun hnd => ?_⟩
    · rw [← h.2, show tokenOccs reg (.num n) path = [] from by
        simp only [tokenOccs]]
      simp [emitFor]
    · rw [← h.2]; exact hnd
  | .boolean b =>
    simp only [replaceVal, Except.ok.injEq, Prod.mk.injEq] at h
    refine ⟨fun k => ?_, fun hnd => ?_⟩
    · rw [← h.2, show tokenOccs reg (.boolean b) path = [] from by
        simp only [tokenOccs]]
      simp [emitFor]
    · rw [← h.2]; exact hnd
  | .null =>
    simp only [replaceVal, Except.ok.injEq, Prod.mk.injEq] at h
    refine ⟨fun k => ?_, fun hnd => ?_⟩
    · rw [← h.2, show tokenOccs reg .null path = [] from by
        simp only [tokenOccs]]
      simp [emitFor]
    · rw [← h.2]; exact hnd
  | .undef =>
    simp only [replaceVal, Except.ok.injEq, Prod.mk.injEq] at h
    refine ⟨fun k => ?_, fun hnd => ?_⟩
    · rw [← h.2, show tokenOccs reg .undef path = [] from by
        simp only [tokenOccs]]
      simp [emitFor]
    · rw [← h.2]; exact hnd
  | .obj fields =>
    simp only [replaceVal] at h
    cases hf : replaceFields E reg locale fields log path with
    | error e => simp [hf] at h
    | ok fl =>
      simp only [hf, Except.ok.injEq, Prod.mk.injEq] at h
      obtain ⟨hocc, hnd⟩ :=
        occFields_of E reg locale fields log path fl.1 fl.2 (by rw [hf])
      refine ⟨fun k => ?_, fun hnd2 => ?_⟩
      · rw [← h.2, show tokenOccs reg (.obj fields) path =
          occFields reg fields path from by simp only [tokenOccs]]
        exact hocc k
      · rw [← h.2]; exact hnd hnd2
  | .arr elems =>
    simp only [replaceVal] at h
    cases he : replaceElems E reg locale elems 0 log path with
    | error e => simp [he] at h
    | ok el =>
      simp only [he, Except.ok.injEq, Prod.mk.injEq] at h
      obtain ⟨hocc, hnd⟩ :=
        occElems_of E reg locale elems 0 log path el.1 el.2 (by rw [he])
      refine ⟨fun k => ?_, fun hnd2 => ?_⟩
      · rw [← h.2, show tokenOccs reg (.arr elems) path =
          occElems reg elems 0 path from by simp only [tokenOccs]]
        exact hocc k
      · rw [← h.2]; exact hnd hnd2
termination_by (sizeOf v, 0)

theorem occFields_of (E : Env) (reg : Registry) (locale : String)
    (fields : List (String × JVal)) :
    ∀ log path fs2 log2,
      replaceFields E reg locale fields log path = .ok (fs2, log2) →
      (∀ k, occsOf log2 k = occsOf log k ++
        emitFor (occFields reg fields path) k) ∧
      ((log.map Prod.fst).Nodup → (log2.map Prod.fst).Nodup) := by
  intro log path fs2 log2 h
  match fields with
  | [] =>
    simp only [replaceFields, Except.ok.injEq, Prod.mk.injEq] at h
    refine ⟨fun k => ?_, fun hnd => ?_⟩
    · rw [← h.2, show occFields reg ([] : List (String × JVal)) path = []
        from by simp only [occFields]]
      simp [emitFor]
    · rw [← h.2]; exact hnd
  | (k0, v) :: rest =>
    simp only [replaceFields] at h
    cases hs : stepEntry E reg locale v log (path ++ [k0]) with
    | error e => simp [hs] at h
    | ok vl =>
      cases hr : replaceFields E reg locale rest vl.2 path with
      | error e => simp [hs, hr] at h
      | ok rl =>
        simp only [hs, hr, Except.ok.injEq, Prod.mk.injEq] at h
        obtain ⟨hocc1, hnd1⟩ :=
          occStep_of E reg locale v log (path ++ [k0]) vl.1 vl.2 (by rw [hs])
        obtain ⟨hocc2, hnd2⟩ :=
          occFields_of E reg locale rest vl.2 path rl.1 rl.2 (by rw [hr])
        refine ⟨fun k => ?_, fun hnd => ?_⟩
        · rw [← h.2, show occFields reg ((k0, v) :: rest) path =
            entryOccs reg v (path ++ [k0]) ++ occFields reg rest path from by
            simp only [occFields]]
          rw [hocc2 k, hocc1 k, emitFor_append, List.append_assoc]
        · rw [← h.2]; exact hnd2 (hnd1 hnd)
termination_by (sizeOf fields, 0)

theorem occElems_of (E : Env) (reg : Registry) (locale : String)
    (elems : List JVal) :
    ∀ i log path es2 log2,
      replaceElems E reg locale elems i log path = .ok (es2, log2) →
      (∀ k, occsOf log2 k = occsOf log k ++
        emitFor (occElems reg elems i path) k) ∧
      ((log.map Prod.fst).Nodup → (log2.map Prod.fst).Nodup) := by
  intro i log path es2 log2 h
  match elems with
  | [] =>
    simp only [replaceElems, Except.ok.injEq, Prod.mk.injEq] at h
    refine ⟨fun k => ?_, fun hnd => ?_⟩
    · rw [← h.2, show occElems reg ([] : List JVal) i path = [] from by
        simp only [occElems]]
      simp [emitFor]
    · rw [← h.2]; exact hnd
  | v :: rest =>
    simp only [replaceElems] at h
    cases hs : stepEntry E reg locale v log
        (path ++ [String.mk (natDigits i)]) with
    | error e => simp [hs] at h
    | ok vl =>
      cases hr : replaceElems E reg locale rest (i + 1) vl.2 path with
      | error e => simp [hs, hr] at h
      | ok rl =>
        simp only [hs, hr, Except.ok.injEq, Prod.mk.injEq] at h
        obtain ⟨hocc1, hnd1⟩ := occStep_of E reg locale v log
          (path ++ [String.mk (natDigits i)]) vl.1 vl.2 (by rw [hs])
        obtain ⟨hocc2, hnd2⟩ :=
          occElems_of E reg locale rest (i + 1) vl.2 path rl.1 rl.2
            (by rw [hr])
        refine ⟨fun k => ?_, fun hnd => ?_⟩
        · rw [← h.2, show occElems reg (v :: rest) i path =
            entryOccs reg v (path ++ [String.mk (natDigits i)]) ++
              occElems reg rest (i + 1) path from by simp only [occElems]]
          rw [hocc2 k, hocc1 k, emitFor_append, List.append_assoc]
        · rw [← h.2]; exact hnd2 (hnd1 hnd)
termination_by (sizeOf elems, 0)

end

/-- C9: on a successful resolution pass started with the empty log, the
audit-log entry for each fileScopedKey holds exactly one occurrence
`{values from the Usage Record, path from the tree root to the leaf}` per
resolved token with that key, in traversal order, and the log has at most
one entry per key — so two occurrences of one key at different tree paths
yield two occurrence records, each with its own path, under one shared
entry. -/
theorem c9_audit_log_occurrences (E : Env) (reg : Registry) (locale : String)
    (fields : List (String × JVal)) (v2 : JVal) (log2 : Log)
    (h : replaceLHR E reg (.obj fields) locale = .ok (v2, log2)) :
    (∀ k, occsOf log2 k = emitFor (tokenOccs reg (.obj fields) []) k) ∧
    (log2.map Prod.fst).Nodup := by
  obtain ⟨hocc, hnd⟩ := occVal_of E reg locale (.obj fields) [] [] v2 log2 h
  refine ⟨fun k => ?_, hnd (by simp)⟩
  rw [hocc k]
  simp [occsOf, alookup_nil]

/-- C9 witness: resolving a tree holding the token `x!#k#0` at the two paths
`a` and `b` against a one-record registry; the accumulated log satisfies the
occurrence equation and has one entry per key. -/
theorem c9_audit_log_occurrences_witness :
    replaceLHR witEnv reg9
      (JVal.obj [(("a"), JVal.str ("x!#k#0")), (("b"), JVal.str ("x!#k#0"))])
      ("en") =
      .ok (JVal.obj [(("a"), JVal.str ("URL|en")),
        (("b"), JVal.str ("URL|en"))],
        [(("x!#k"), ⟨("URL"), [⟨none, [("a")]⟩, ⟨none, [("b")]⟩]⟩)]) ∧
    ((∀ k, occsOf [(("x!#k"), ⟨("URL"),
        [⟨none, [("a")]⟩, ⟨none, [("b")]⟩]⟩)] k =
      emitFor (tokenOccs reg9 (.obj [(("a"), JVal.str ("x!#k#0")),
        (("b"), JVal.str ("x!#k#0"))]) []) k) ∧
    (([(("x!#k"), (⟨("URL"), [⟨none, [("a")]⟩, ⟨none, [("b")]⟩]⟩ :
      LogRecord))] : Log).map Prod.fst).Nodup) := by
  have h : replaceLHR witEnv reg9
      (JVal.obj [(("a"), JVal.str ("x!#k#0")), (("b"), JVal.str ("x!#k#0"))])
      ("en") =
      .ok (JVal.obj [(("a"), JVal.str ("URL|en")),
        (("b"), JVal.str ("URL|en"))],
        [(("x!#k"), ⟨("URL"), [⟨none, [("a")]⟩, ⟨none, [("b")]⟩]⟩)]) := by
    simp [replaceLHR, replaceVal, replaceFields, stepEntry, resolveCore,
      formatTemplate, preprocessMessageValues, templateUsed, witEnv, reg9,
      arrGet, canonicalDigits, natOfDigits, alookup, objSet, occsOf,
      (by decide : testToken ("x!#k#0") = true),
      (by decide : splitLastHash (("x!#k#0").data) =
        some ((("x!#k").data), [('0')])),
      (by decide : String.mk (afterLastNewline (("x!#k").data)) = ("x!#k"))]
  exact ⟨h, c9_audit_log_occurrences witEnv reg9 ("en")
    [(("a"), JVal.str ("x!#k#0")), (("b"), JVal.str ("x!#k#0"))] _ _ h⟩

/-! ### Recorder lemmas -/

theorem alookup_map_value {β γ : Type} (g : β → γ) (m : List (String × β))
    (k : String) :
    alookup (m.map (fun kv => (kv.1, g kv.2))) k = (alookup m k).map g := by
  induction m with
  | nil => rfl
  | cons p rest ih =>
    obtain ⟨k0, v0⟩ := p
    show alookup ((k0, g v0) :: rest.map (fun kv => (kv.1, g kv.2))) k =
      (alookup ((k0, v0) :: rest) k).map g
    rw [alookup_cons, alookup_cons]
    by_cases h : k0 = k
    · rw [if_pos h, if_pos h]
      rfl
    · rw [if_neg h, if_neg h, ih]

theorem foldStyled_alookup_count (f : JSNum → JSNum) (els : List MsgElement)
    (acc : Values) (k : String) :
    alookup (els.foldl
      (fun acc el => objSet acc el.id (f (jsGetNum acc el.id))) acc) k =
      (fun o : Option JSNum => some (f (o.getD .nan)))^[
        (els.filter (fun el => el.id = k)).length] (alookup acc k) := by
  induction els generalizing acc with
  | nil => rfl
  | cons el rest ih =>
    rw [List.foldl_cons, ih]
    by_cases hk : el.id = k
    · have h1 : alookup (objSet acc el.id (f (jsGetNum acc el.id))) k =
          some (f ((alookup acc k).getD .nan)) := by
        rw [← hk]
        exact alookup_objSet_self _ _ _
      have hcount : ((el :: rest).filter (fun el => el.id = k)).length =
          ((rest.filter (fun el => el.id = k)).length) + 1 := by
        simp [List.filter_cons, hk]
      rw [h1, hcount, Function.iterate_succ_apply]
    · have h1 : alookup (objSet acc el.id (f (jsGetNum acc el.id))) k =
          alookup acc k :=
        alookup_objSet_ne _ _ _ _ (fun hh => hk hh.symm)
      have hcount : ((el :: rest).filter (fun el => el.id = k)).length =
          (rest.filter (fun el => el.id = k)).length := by
        simp [List.filter_cons, hk]
      rw [h1, hcount]

/-- C3 counterexample: three concrete failures of the claim as stated.
First, with the module's own `ms` template and the present empty mapping the
missing styled id `timeInMs` is *added*, as NaN — the output does not have
the same keys as the input. Second, with values carrying NaN the JSON deep
copy turns NaN into null, so the `milliseconds`-styled entry comes out 0
(which is not NaN rounded) and the unstyled entry comes out null (not
passed through unchanged). Third, a template that styles the id `b` as
`bytes` twice divides the entry by 1024 twice, not once. -/
theorem c3_preprocessor_same_keys_counterexample :
    (preprocessMessageValues ceEnvC3
        ("\x7btimeInMs, number, milliseconds\x7d ms") (some []) =
      .ok (some [(("timeInMs"), JSNum.nan)]) ∧
     ¬([(("timeInMs"), JSNum.nan)].map Prod.fst =
       ([] : Values).map Prod.fst)) ∧
    (preprocessMessageValues ceEnvC3
        ("\x7btimeInMs, number, milliseconds\x7d ms")
        (some [(("timeInMs"), JSNum.nan), (("other"), JSNum.nan)]) =
      .ok (some [(("timeInMs"), JSNum.num 0), (("other"), JSNum.jnull)]) ∧
     ¬(JSNum.num 0 = jsRound10 JSNum.nan) ∧
     ¬(JSNum.jnull = JSNum.nan)) ∧
    (preprocessMessageValues ceEnvC3b ("m")
        (some [(("b"), JSNum.num 2048)]) =
      .ok (some [(("b"), jsDiv1024 (jsDiv1024 (JSNum.num 2048)))]) ∧
     ¬(jsDiv1024 (jsDiv1024 (JSNum.num 2048)) =
       jsDiv1024 (JSNum.num 2048))) :=
  ⟨⟨rfl, by simp⟩, ⟨rfl, by decide, by decide⟩, ⟨rfl, by norm_num [jsDiv1024]⟩⟩

/-- C3 (amended): for every template that parses and every present values
mapping, the Preprocessor's output at each key is the input entry passed
through the JSON round-trip (finite numbers unchanged, NaN becoming null),
then transformed once per styled occurrence of that key in the template —
all milliseconds roundings first, then all byte divisions, null coercing to
0 and a missing entry to NaN.  In particular an entry styled `milliseconds`
exactly once holds its number rounded to the nearest multiple of 10, an
entry styled `bytes` exactly once holds its number divided by 1024, an
entry named by no styled placeholder passes through the round-trip
unchanged, and the output's keys are the input's keys together with the
styled placeholder ids; if values is absent the Preprocessor returns
immediately. -/
theorem c3_preprocessor_styled_transforms (E : Env) (msg : String)
    (vs : Values) (parsed : List MsgElement)
    (hparse : E.parse msg = .ok parsed) :
    ∃ out, preprocessMessageValues E msg (some vs) = .ok (some out) ∧
      (∀ k, alookup out k =
        (fun o : Option JSNum => some (jsDiv1024 (o.getD .nan)))^[
            countBytes parsed k]
          ((fun o : Option JSNum => some (jsRound10 (o.getD .nan)))^[
              countMs parsed k]
            ((alookup vs k).map jsonNum))) ∧
      (∀ k, countMs parsed k = 0 → countBytes parsed k = 0 →
        alookup out k = (alookup vs k).map jsonNum) ∧
      (∀ k q, countMs parsed k = 1 → countBytes parsed k = 0 →
        alookup vs k = some (.num q) →
        alookup out k = some (jsRound10 (.num q))) ∧
      (∀ k q, countMs parsed k = 0 → countBytes parsed k = 1 →
        alookup vs k = some (.num q) →
        alookup out k = some (jsDiv1024 (.num q))) ∧
      (∀ k, (alookup out k).isSome = true ↔
        ((alookup vs k).isSome = true ∨ 0 < countMs parsed k ∨
          0 < countBytes parsed k)) ∧
      preprocessMessageValues E msg none = .ok none := by
  have hgen : ∀ k, alookup ((parsed.filter
      (fun el => el.style = some ("bytes"))).foldl
      (fun acc el => objSet acc el.id (jsDiv1024 (jsGetNum acc el.id)))
      ((parsed.filter (fun el => el.style = some ("milliseconds"))).foldl
        (fun acc el => objSet acc el.id (jsRound10 (jsGetNum acc el.id)))
        (jsonClone vs))) k =
      (fun o : Option JSNum => some (jsDiv1024 (o.getD .nan)))^[
          countBytes parsed k]
        ((fun o : Option JSNum => some (jsRound10 (o.getD .nan)))^[
            countMs parsed k]
          ((alookup vs k).map jsonNum)) := by
    intro k
    rw [foldStyled_alookup_count, foldStyled_alookup_count,
      show alookup (jsonClone vs) k = (alookup vs k).map jsonNum from
        alookup_map_value jsonNum vs k]
    rfl
  refine ⟨(parsed.filter (fun el => el.style = some ("bytes"))).foldl
      (fun acc el => objSet acc el.id (jsDiv1024 (jsGetNum acc el.id)))
      ((parsed.filter (fun el => el.style = some ("milliseconds"))).foldl
        (fun acc el => objSet acc el.id (jsRound10 (jsGetNum acc el.id)))
        (jsonClone vs)),
    by simp [preprocessMessageValues, hparse], hgen, ?_, ?_, ?_, ?_, rfl⟩
  · intro k hm hb
    rw [hgen k, hm, hb]
    simp only [Function.iterate_zero_apply]
  · intro k q hm hb hv
    rw [hgen k, hm, hb, hv]
    simp [Function.iterate_one, jsonNum]
  · intro k q hm hb hv
    rw [hgen k, hm, hb, hv]
    simp [Function.iterate_one, jsonNum]
  · intro k
    rw [hgen k]
    cases hb : countBytes parsed k with
    | zero =>
      simp only [Function.iterate_zero_apply]
      cases hm : countMs parsed k with
      | zero =>
        simp only [Function.iterate_zero_apply]
        cases hvk : alookup vs k <;> simp
      | succ n =>
        rw [Function.iterate_succ_apply']
        simp
    | succ n =>
      rw [Function.iterate_succ_apply']
      simp

/-- C3 witness: the amended preprocessor theorem applied to the styled
witness environment and a mapping holding a milliseconds entry, a bytes
entry, an unstyled number and an unstyled NaN. -/
theorem c3_preprocessor_styled_transforms_witness :
    witEnvStyled.parse ("m") = .ok [⟨("t"), some ("milliseconds")⟩,
      ⟨("b"), some ("bytes")⟩] ∧
    ∃ out, preprocessMessageValues witEnvStyled ("m")
        (some [(("t"), JSNum.num 1234), (("b"), JSNum.num 2048),
          (("x"), JSNum.num 5), (("n"), JSNum.nan)]) = .ok (some out) ∧
      (∀ k, alookup out k =
        (fun o : Option JSNum => some (jsDiv1024 (o.getD .nan)))^[
            countBytes [⟨("t"), some ("milliseconds")⟩,
              ⟨("b"), some ("bytes")⟩] k]
          ((fun o : Option JSNum => some (jsRound10 (o.getD .nan)))^[
              countMs [⟨("t"), some ("milliseconds")⟩,
                ⟨("b"), some ("bytes")⟩] k]
            ((alookup [(("t"), JSNum.num 1234), (("b"), JSNum.num 2048),
              (("x"), JSNum.num 5), (("n"), JSNum.nan)] k).map jsonNum))) ∧
      (∀ k, countMs [⟨("t"), some ("milliseconds")⟩,
          ⟨("b"), some ("bytes")⟩] k = 0 →
        countBytes [⟨("t"), some ("milliseconds")⟩,
          ⟨("b"), some ("bytes")⟩] k = 0 →
        alookup out k = (alookup [(("t"), JSNum.num 1234),
          (("b"), JSNum.num 2048), (("x"), JSNum.num 5),
          (("n"), JSNum.nan)] k).map jsonNum) ∧
      (∀ k q, countMs [⟨("t"), some ("milliseconds")⟩,
          ⟨("b"), some ("bytes")⟩] k = 1 →
        countBytes [⟨("t"), some ("milliseconds")⟩,
          ⟨("b"), some ("bytes")⟩] k = 0 →
        alookup [(("t"), JSNum.num 1234), (("b"), JSNum.num 2048),
          (("x"), JSNum.num 5), (("n"), JSNum.nan)] k = some (.num q) →
        alookup out k = some (jsRound10 (.num q))) ∧
      (∀ k q, countMs [⟨("t"), some ("milliseconds")⟩,
          ⟨("b"), some ("bytes")⟩] k = 0 →
        countBytes [⟨("t"), some ("milliseconds")⟩,
          ⟨("b"), some ("bytes")⟩] k = 1 →
        alookup [(("t"), JSNum.num 1234), (("b"), JSNum.num 2048),
          (("x"), JSNum.num 5), (("n"), JSNum.nan)] k = some (.num q) →
        alookup out k = some (jsDiv1024 (.num q))) ∧
      (∀ k, (alookup out k).isSome = true ↔
        ((alookup [(("t"), JSNum.num 1234), (("b"), JSNum.num 2048),
          (("x"), JSNum.num 5), (("n"), JSNum.nan)] k).isSome = true ∨
          0 < countMs [⟨("t"), some ("milliseconds")⟩,
            ⟨("b"), some ("bytes")⟩] k ∨
          0 < countBytes [⟨("t"), some ("milliseconds")⟩,
            ⟨("b"), some ("bytes")⟩] k)) ∧
      preprocessMessageValues witEnvStyled ("m") none = .ok none :=
  ⟨rfl, c3_preprocessor_styled_transforms witEnvStyled ("m")
    [(("t"), JSNum.num 1234), (("b"), JSNum.num 2048), (("x"), JSNum.num 5),
      (("n"), JSNum.nan)]
    [⟨("t"), some ("milliseconds")⟩, ⟨("b"), some ("bytes")⟩] rfl⟩
